import Mathlib

/-!
A shallow embedding of the WorkOS-to-BetterAuth migration script
(scripts/migrate-workos.ts) of the next-authkit-example repository.

Strings are Lean `String`s (character lists where character-level reasoning
is needed).  JavaScript optional / nullable values are `Option`s; JavaScript
falsiness of strings and numbers is modelled explicitly where the script
relies on it.  The external world (the WorkOS client and the BetterAuth
adapter) is modelled by oracles passed in as environment records: each
fallible network call is represented by an `Except Unit` value or a `Bool`
success flag, and each `adapter.create` call is recorded as an emitted
request (`Req`) carrying the exact field mapping the script builds.
Randomness (generateRandomString) and symmetric encryption are abstracted:
the random source is an oracle `Nat → List Char` giving the output of each
call, and `symmetricEncrypt` is modelled by a record pairing the serialized
plaintext with the key used, which is all the claims need.
-/

namespace MigrateWorkOS

/-- The shapes a WorkOS timestamp value can take when it reaches
`safeDateConversion`: absent (`undefined`), `null`, a string, or a numeric
epoch value. -/
inductive DateInput where
  | absent
  | null
  | str (s : String)
  | num (n : Int)
  deriving DecidableEq, Repr

/-- JavaScript falsiness of a `string | number | null | undefined` value:
`undefined`, `null`, the empty string and the number 0 are falsy. -/
def isFalsyDate : DateInput → Bool
  | .absent => true
  | .null => true
  | .str s => decide (s = "")
  | .num n => decide (n = 0)

/-- Embedding of `safeDateConversion` (migrate-workos.ts line 92):
if the input is falsy it returns `new Date()` (the current time `now`),
otherwise `new Date(date)` — the numeric value itself for numbers, or the
result of the date parser for strings.  Dates are epoch milliseconds. -/
def safeDateConversion (now : Int) (parseStr : String → Int) (d : DateInput) : Int :=
  if isFalsyDate d then now
  else
    match d with
    | .num n => n
    | .str s => parseStr s
    | _ => now

/-- JavaScript `a || b` for an optional string `a`: the default is used when
`a` is `undefined`/`null` (`none`) or the empty string (falsy). -/
def jsOrString (a : Option String) (b : String) : String :=
  match a with
  | none => b
  | some s => if s = "" then b else s

/-- Embedding of `String.prototype.toLowerCase` (character-wise; the script
only applies it to organization names and connection types). -/
def jsToLower (s : String) : String :=
  String.mk (s.data.map Char.toLower)

/-- One character of the regex replace `[^a-z0-9] → '-'`. -/
def slugChar (c : Char) : Char :=
  if (decide ('a' ≤ c) && decide (c ≤ 'z')) || (decide ('0' ≤ c) && decide (c ≤ '9'))
  then c else '-'

/-- Embedding of `.replace(/[^a-z0-9]/g, '-')`. -/
def jsReplaceNonAlnum (s : String) : String :=
  String.mk (s.data.map slugChar)

/-- Slug derivation from an organization name (migrate-workos.ts line 142):
`org.name.toLowerCase().replace(/[^a-z0-9]/g, '-')`. -/
def slugOf (name : String) : String :=
  jsReplaceNonAlnum (jsToLower name)

/-- ASCII whitespace used by the `trim()` embedding. -/
def isWsChar (c : Char) : Bool :=
  c = ' ' || c = '\t' || c = '\n' || c = '\r'

/-- Embedding of `String.prototype.trim` (ASCII whitespace). -/
def jsTrim (s : String) : String :=
  String.mk (((s.data.dropWhile isWsChar).reverse.dropWhile isWsChar).reverse)

/-- Embedding of `String.prototype.split(sep)` on character lists: splits at
every occurrence of `sep`, keeping empty components. -/
def jsSplit (sep : Char) : List Char → List (List Char)
  | [] => [[]]
  | c :: cs =>
    if c = sep then [] :: jsSplit sep cs
    else
      match jsSplit sep cs with
      | [] => [[c]]
      | r :: rs => (c :: r) :: rs

/-- The username derivation (migrate-workos.ts line 221):
`workosUser.email.split("@")[0]`. -/
def usernameOf (email : String) : String :=
  String.mk ((jsSplit '@' email.data).headD [])

/-- The alphabet `{a-z, 0-9, A-Z}` passed to `generateRandomString`. -/
def isAlnumB (c : Char) : Bool :=
  (decide ('a' ≤ c) && decide (c ≤ 'z')) ||
  (decide ('0' ≤ c) && decide (c ≤ '9')) ||
  (decide ('A' ≤ c) && decide (c ≤ 'Z'))

/-- Formatting of one backup code (migrate-workos.ts line 102):
`code.slice(0, 5) ++ "-" ++ code.slice(5)`. -/
def formatBackupCode (code : List Char) : List Char :=
  code.take 5 ++ '-' :: code.drop 5

/-- The ten raw backup codes produced by `generateBackupCodes` before
encryption: `Array.from({length: 10}).fill(null).map(() =>
generateRandomString(10, "a-z", "0-9", "A-Z")).map(format)`.  `rand i` is
the output of the i-th `generateRandomString(10, ...)` call. -/
def rawBackupCodes (rand : Nat → List Char) : List (List Char) :=
  ((List.range 10).map (fun i => rand i)).map formatBackupCode

/-- Result of `symmetricEncrypt({data, key})`: an opaque ciphertext,
modelled as the serialized plaintext (here: the code list itself, since
`JSON.stringify` is injective on it) together with the key used. -/
structure EncryptedPayload where
  data : List (List Char)
  key : String
  deriving DecidableEq, Repr

/-- Embedding of `generateBackupCodes` (migrate-workos.ts lines 98-109):
produces ten formatted codes and encrypts their serialization with the
TOTP secret as the key. -/
def generateBackupCodes (rand : Nat → List Char) (secret : String) : EncryptedPayload :=
  { data := rawBackupCodes rand, key := secret }

/-- Decidable check that a code matches `[A-Za-z0-9]{5}-[A-Za-z0-9]{5}`. -/
def matchesBackupPattern (code : List Char) : Bool :=
  decide (code.length = 11) && (code.take 5).all isAlnumB &&
  decide ((code.drop 5).headD ' ' = '-') && (code.drop 6).all isAlnumB

/-! ## Source records (WorkOS API shapes, as the script consumes them) -/

/-- Auth factor type tag: the `type` field is one of the string literals
`"totp" | "sms" | "email"`. -/
inductive FType where
  | totp
  | sms
  | email
  deriving DecidableEq, Repr

structure TotpConfig where
  qr_code : String
  secret : String
  deriving DecidableEq, Repr

structure SmsConfig where
  phoneNumber : String
  deriving DecidableEq, Repr

/-- The script reads `email_configuration.hashedPassword`, which is not in
the declared interface (the response is consumed as `any`), so the field is
optional here: `none` models a JavaScript `undefined` access. -/
structure EmailConfig where
  email : String
  hashedPassword : Option String
  deriving DecidableEq, Repr

structure AuthFactor where
  id : String
  type : FType
  createdAt : DateInput
  updatedAt : DateInput
  totp_configuration : Option TotpConfig
  sms_configuration : Option SmsConfig
  email_configuration : Option EmailConfig
  deriving DecidableEq, Repr

structure Org where
  id : String
  name : String
  createdAt : DateInput
  updatedAt : DateInput
  deriving DecidableEq, Repr

structure WUser where
  id : String
  email : String
  emailVerified : Bool
  firstName : Option String
  lastName : Option String
  profilePictureUrl : Option String
  createdAt : DateInput
  updatedAt : DateInput
  deriving DecidableEq, Repr

/-- An organization membership; `roleSlug` models `membership.role.slug`
(`none` when the role carries no slug / the slug is `undefined`). -/
structure Membership where
  organizationId : String
  roleSlug : Option String
  createdAt : DateInput
  updatedAt : DateInput
  deriving DecidableEq, Repr

/-- The SSO connection returned by `workos.sso.getConnection`. -/
structure Connection where
  id : String
  type : String
  createdAt : DateInput
  updatedAt : DateInput
  deriving DecidableEq, Repr

/-! ## Destination create requests

Each call `ctx.adapter.create({model, data, forceAllowId})` is recorded as
a `Req` value holding the model name (through the constructor), the `data`
field mapping, and the `forceAllowId` flag. -/

structure OrgData where
  id : String
  name : String
  slug : String
  createdAt : Int
  updatedAt : Int
  deriving DecidableEq, Repr

structure UserData where
  id : String
  email : String
  emailVerified : Bool
  name : String
  image : Option String
  createdAt : Int
  updatedAt : Int
  role : String
  banned : Bool
  twoFactorEnabled : Bool
  username : String
  phoneNumber : Option String
  phoneNumberVerified : Bool
  deriving DecidableEq, Repr

structure AccountData where
  userId : String
  type : String
  provider : String
  providerAccountId : String
  password : Option String
  createdAt : Int
  updatedAt : Int
  deriving DecidableEq, Repr

structure MemberData where
  userId : String
  organizationId : String
  role : String
  createdAt : Int
  updatedAt : Int
  deriving DecidableEq, Repr

structure TwoFactorData where
  userId : String
  secret : String
  backupCodes : EncryptedPayload
  deriving DecidableEq, Repr

inductive Req where
  | org (data : OrgData) (forceAllowId : Bool)
  | user (data : UserData) (forceAllowId : Bool)
  | account (data : AccountData) (forceAllowId : Bool)
  | member (data : MemberData) (forceAllowId : Bool)
  | twoFactor (data : TwoFactorData) (forceAllowId : Bool)
  deriving DecidableEq, Repr

/-- The `model` string of the create call a `Req` records. -/
def Req.modelName : Req → String
  | .org _ _ => "organization"
  | .user _ _ => "user"
  | .account _ _ => "account"
  | .member _ _ => "member"
  | .twoFactor _ _ => "twoFactor"

/-- The `forceAllowId` flag of the create call. -/
def Req.force : Req → Bool
  | .org _ fa => fa
  | .user _ fa => fa
  | .account _ fa => fa
  | .member _ fa => fa
  | .twoFactor _ fa => fa

/-- The `data.id` field of the create call, when one is supplied (only
organization and user creates pass an `id`). -/
def Req.reqId : Req → Option String
  | .org d _ => some d.id
  | .user d _ => some d.id
  | _ => none

/-- The `role` field of a member create. -/
def Req.roleField : Req → Option String
  | .member d _ => some d.role
  | _ => none

/-- The `twoFactorEnabled` field of a user create. -/
def Req.twoFactorEnabledField : Req → Option Bool
  | .user d _ => some d.twoFactorEnabled
  | _ => none

/-- The `username` field of a user create. -/
def Req.usernameField : Req → Option String
  | .user d _ => some d.username
  | _ => none

/-- The `slug` field of an organization create. -/
def Req.slugField : Req → Option String
  | .org d _ => some d.slug
  | _ => none

/-! ## Organization phase -/

/-- Oracles for the organization phase: the clock, the string date parser,
and whether the destination create for a given organization succeeds. -/
structure OrgEnv where
  now : Int
  parseStr : String → Int
  createOrgOk : Org → Bool

/-- The in-memory `orgMap` is a `Map<string, string>`; `set` prepends and
`get` takes the first (most recent) binding. -/
def mapSet (m : List (String × String)) (k v : String) : List (String × String) :=
  (k, v) :: m

def mapGet (m : List (String × String)) (k : String) : Option String :=
  (m.find? (fun p => decide (p.1 = k))).map (fun p => p.2)

/-- Loop state of `migrateOrganizations`: the three counters, the org map,
the create requests issued so far, and (as instrumentation for stating the
pagination property) the number of pages fetched. -/
structure OrgState where
  total : Nat := 0
  migrated : Nat := 0
  failed : Nat := 0
  map : List (String × String) := []
  reqs : List Req := []
  pages : Nat := 0

/-- The organization create request (migrate-workos.ts lines 137-147). -/
def mkOrgReq (env : OrgEnv) (o : Org) : Req :=
  .org
    { id := o.id
      name := o.name
      slug := slugOf o.name
      createdAt := safeDateConversion env.now env.parseStr o.createdAt
      updatedAt := safeDateConversion env.now env.parseStr o.updatedAt }
    true

/-- Processing of one organization record (the inner try/catch of lines
133-156): on success the request is issued, the map records
source-id ↦ created-id (the adapter echoes back the forced id, so the
created id equals `o.id`) and the success counter steps; on failure only
the failure counter steps. -/
def processOrg (env : OrgEnv) (st : OrgState) (o : Org) : OrgState :=
  if env.createOrgOk o then
    { st with
      reqs := st.reqs ++ [mkOrgReq env o]
      map := mapSet st.map o.id o.id
      migrated := st.migrated + 1 }
  else
    { st with failed := st.failed + 1 }

def processOrgPage (env : OrgEnv) (st : OrgState) (page : List Org) : OrgState :=
  page.foldl (processOrg env) st

/-- The generic pagination loop shared by both phases: each element of the
trace is one page fetch (`Except.error` = the fetch threw).  A fetch error
breaks the loop; otherwise the page is handed to `step` and the loop
continues exactly when the page is full (`length = 100`, the requested
limit). -/
def paginationLoop {σ α : Type} (step : σ → List α → σ) :
    List (Except Unit (List α)) → σ → σ
  | [], st => st
  | .error _ :: _, st => st
  | .ok page :: rest, st =>
    let st1 := step st page
    if page.length = 100 then paginationLoop step rest st1 else st1

/-- One successful iteration of the organization loop body (lines 121-156):
bump the totals for the fetched page, then process each record. -/
def orgStep (env : OrgEnv) (st : OrgState) (page : List Org) : OrgState :=
  processOrgPage env { st with total := st.total + page.length, pages := st.pages + 1 } page

/-- Embedding of `migrateOrganizations` (lines 111-164), abstracted over
the trace of page-fetch results. -/
def migrateOrganizations (env : OrgEnv) (pages : List (Except Unit (List Org)))
    (st : OrgState) : OrgState :=
  paginationLoop (orgStep env) pages st

/-! ## User phase -/

/-- Oracles for processing one user: the outcome of each WorkOS call made
for that user and the success of each destination create.  `rand` feeds the
`generateRandomString` calls inside `generateBackupCodes`. -/
structure UserEnv where
  now : Int
  parseStr : String → Int
  authFactors : Except Unit (List AuthFactor)
  createUserOk : Bool
  createCredAccountOk : Bool
  ssoConn : Except Unit (Option Connection)
  createOauthAccountOk : Bool
  memberships : Except Unit (List Membership)
  getOrgOk : String → Bool
  createMemberOk : Membership → Bool
  createTwoFactorOk : AuthFactor → Bool
  rand : Nat → List Char

def twoFactorEnabledOf (factors : List AuthFactor) : Bool :=
  factors.any (fun f => decide (f.type = FType.totp))

def smsFactor (factors : List AuthFactor) : Option AuthFactor :=
  factors.find? (fun f => decide (f.type = FType.sms))

/-- `${firstName || ''} ${lastName || ''}`.trim() || email (line 214). -/
def displayName (u : WUser) : String :=
  let n := jsTrim (jsOrString u.firstName "" ++ " " ++ jsOrString u.lastName "")
  if n = "" then u.email else n

/-- The user create request (migrate-workos.ts lines 208-227). -/
def mkUserReq (env : UserEnv) (u : WUser) (factors : List AuthFactor) : Req :=
  .user
    { id := u.id
      email := u.email
      emailVerified := u.emailVerified
      name := displayName u
      image := u.profilePictureUrl
      createdAt := safeDateConversion env.now env.parseStr u.createdAt
      updatedAt := safeDateConversion env.now env.parseStr u.updatedAt
      role := "user"
      banned := false
      twoFactorEnabled := twoFactorEnabledOf factors
      username := usernameOf u.email
      phoneNumber := (smsFactor factors).bind
        (fun f => (f.sms_configuration).map (fun c => c.phoneNumber))
      phoneNumberVerified := (smsFactor factors).isSome }
    true

/-- `authFactors.find(f => f.type === "email" && f.email_configuration)`. -/
def emailCredFactor (factors : List AuthFactor) : Option AuthFactor :=
  factors.find? (fun f => decide (f.type = FType.email) && f.email_configuration.isSome)

/-- The credentials account create (lines 233-245); both the `userId` and
`providerAccountId` fields receive the user's (forced) id. -/
def mkCredAccountReq (env : UserEnv) (uid : String) (f : AuthFactor) : Req :=
  .account
    { userId := uid
      type := "credentials"
      provider := "credentials"
      providerAccountId := uid
      password := f.email_configuration.bind (fun c => c.hashedPassword)
      createdAt := safeDateConversion env.now env.parseStr f.createdAt
      updatedAt := safeDateConversion env.now env.parseStr f.updatedAt }
    true

/-- The OAuth sub-step (lines 250-271): the whole block is wrapped in its
own try/catch, so a throw from `getConnection` or from the account create
is swallowed and only suppresses the request. -/
def oauthReqs (env : UserEnv) (u : WUser) : List Req :=
  match env.ssoConn with
  | .error _ => []
  | .ok none => []
  | .ok (some c) =>
    if env.createOauthAccountOk then
      [.account
        { userId := u.id
          type := "oauth"
          provider := jsToLower c.type
          providerAccountId := c.id
          password := none
          createdAt := safeDateConversion env.now env.parseStr c.createdAt
          updatedAt := safeDateConversion env.now env.parseStr c.updatedAt }
        true]
    else []

/-- The member create request (lines 289-299). -/
def mkMemberReq (env : UserEnv) (uid oid : String) (m : Membership) : Req :=
  .member
    { userId := uid
      organizationId := oid
      role := jsOrString m.roleSlug "member"
      createdAt := safeDateConversion env.now env.parseStr m.createdAt
      updatedAt := safeDateConversion env.now env.parseStr m.updatedAt }
    true

/-- The membership loop (lines 283-302): memberships whose organization is
not in the phase-1 map are skipped; for the others, the organization detail
fetch and the member create each may throw, which aborts the remaining
memberships (the surrounding try/catch swallows the error) while keeping
the creates already issued. -/
def processMemberships (env : UserEnv) (orgMap : List (String × String))
    (uid : String) : List Membership → List Req
  | [] => []
  | m :: rest =>
    match mapGet orgMap m.organizationId with
    | none => processMemberships env orgMap uid rest
    | some oid =>
      if env.getOrgOk m.organizationId then
        if env.createMemberOk m then
          mkMemberReq env uid oid m :: processMemberships env orgMap uid rest
        else []
      else []

/-- The membership sub-step (lines 274-306): a throw from the membership
listing itself is swallowed by the same try/catch. -/
def membershipReqs (env : UserEnv) (orgMap : List (String × String))
    (uid : String) : List Req :=
  match env.memberships with
  | .error _ => []
  | .ok ms => processMemberships env orgMap uid ms

/-- The 2FA loop (lines 309-322): for each TOTP factor with a
configuration, a twoFactor create is issued; this loop is NOT wrapped in
its own try/catch, so a failing create aborts the user (the requests
already issued stand, and the returned flag records the failure). -/
def processTwoFactors (env : UserEnv) (uid : String) :
    List AuthFactor → List Req × Bool
  | [] => ([], true)
  | f :: rest =>
    if f.type = FType.totp then
      match f.totp_configuration with
      | some cfg =>
        if env.createTwoFactorOk f then
          let r := processTwoFactors env uid rest
          (.twoFactor { userId := uid
                        secret := cfg.secret
                        backupCodes := generateBackupCodes env.rand cfg.secret } true :: r.1, r.2)
        else ([], false)
      | none => processTwoFactors env uid rest
    else processTwoFactors env uid rest

/-- The tail of one user's processing, after the user create (and possible
credentials-account create) succeeded: OAuth sub-step, membership sub-step,
then the 2FA loop, whose failure flag decides the user's outcome. -/
def processUserTail (env : UserEnv) (orgMap : List (String × String)) (u : WUser)
    (factors : List AuthFactor) (base : List Req) : List Req × Bool :=
  let base2 := base ++ oauthReqs env u ++ membershipReqs env orgMap u.id
  let tf := processTwoFactors env u.id factors
  (base2 ++ tf.1, tf.2)

/-- Processing of one user (the body of the inner try of lines 196-330):
returns the create requests issued for that user (in order) and whether the
processing ran to completion (`false` = an exception escaped to the user
boundary).  Requests issued before the throwing step stand. -/
def processUser (env : UserEnv) (orgMap : List (String × String)) (u : WUser) :
    List Req × Bool :=
  match env.authFactors with
  | .error _ => ([], false)
  | .ok factors =>
    if env.createUserOk then
      match emailCredFactor factors with
      | some ef =>
        if env.createCredAccountOk then
          processUserTail env orgMap u factors [mkUserReq env u factors, mkCredAccountReq env u.id ef]
        else ([mkUserReq env u factors], false)
      | none => processUserTail env orgMap u factors [mkUserReq env u factors]
    else ([], false)

/-- Loop state of the user phase. -/
structure UserState where
  total : Nat := 0
  migrated : Nat := 0
  failed : Nat := 0
  reqs : List Req := []
  pages : Nat := 0

/-- The per-user catch boundary (lines 326-329): a completed user steps the
success counter, an escaped exception steps the failure counter; either
way the loop continues. -/
def stepUser (orgMap : List (String × String)) (envf : WUser → UserEnv)
    (st : UserState) (u : WUser) : UserState :=
  let r := processUser (envf u) orgMap u
  { st with
    reqs := st.reqs ++ r.1
    migrated := if r.2 then st.migrated + 1 else st.migrated
    failed := if r.2 then st.failed else st.failed + 1 }

def processUsersPage (orgMap : List (String × String)) (envf : WUser → UserEnv)
    (st : UserState) (page : List WUser) : UserState :=
  page.foldl (stepUser orgMap envf) st

/-- One successful iteration of the user loop body (lines 181-330). -/
def userStep (orgMap : List (String × String)) (envf : WUser → UserEnv)
    (st : UserState) (page : List WUser) : UserState :=
  processUsersPage orgMap envf
    { st with total := st.total + page.length, pages := st.pages + 1 } page

/-- The user-phase pagination loop. -/
def userLoop (orgMap : List (String × String)) (envf : WUser → UserEnv)
    (pages : List (Except Unit (List WUser))) (st : UserState) : UserState :=
  paginationLoop (userStep orgMap envf) pages st

/-- Embedding of `migrateFromWorkOS` (lines 166-343): run the organization
phase, then the user phase reading the organization map the first phase
produced. -/
def migrateFromWorkOS (oenv : OrgEnv) (orgPages : List (Except Unit (List Org)))
    (uenvf : WUser → UserEnv) (userPages : List (Except Unit (List WUser))) :
    OrgState × UserState :=
  let ost := migrateOrganizations oenv orgPages {}
  (ost, userLoop ost.map uenvf userPages {})

/-- All records carried by the successfully fetched pages of a trace. -/
def okRecords {α : Type} (pages : List (Except Unit (List α))) : List α :=
  (pages.filterMap (fun e => match e with | .ok p => some p | .error _ => none)).flatten

/-! ## Sample values used by the witness theorems -/

def sampleDate : DateInput := .num 1700000000000

def sampleOrg : Org :=
  { id := "org1", name := "Acme Inc", createdAt := sampleDate, updatedAt := sampleDate }

def sampleUser : WUser :=
  { id := "user1", email := "ada@example.com", emailVerified := true,
    firstName := some "Ada", lastName := some "L", profilePictureUrl := none,
    createdAt := sampleDate, updatedAt := sampleDate }

def sampleFactorTotp : AuthFactor :=
  { id := "f1", type := .totp, createdAt := sampleDate, updatedAt := sampleDate,
    totp_configuration := some { qr_code := "qr", secret := "sec" },
    sms_configuration := none, email_configuration := none }

def sampleMembership : Membership :=
  { organizationId := "org1", roleSlug := some "admin",
    createdAt := sampleDate, updatedAt := sampleDate }

def sampleRand : Nat → List Char := fun _ => ['a', 'b', 'c', 'd', 'e', '1', '2', '3', '4', '5']

def sampleOrgMap : List (String × String) := [("org1", "org1")]

def sampleOrgEnv : OrgEnv :=
  { now := 42, parseStr := fun _ => 7, createOrgOk := fun _ => true }

/-- A user environment in which every call succeeds. -/
def allOkUserEnv : UserEnv :=
  { now := 42
    parseStr := fun _ => 7
    authFactors := .ok [sampleFactorTotp]
    createUserOk := true
    createCredAccountOk := true
    ssoConn := .ok none
    createOauthAccountOk := true
    memberships := .ok [sampleMembership]
    getOrgOk := fun _ => true
    createMemberOk := fun _ => true
    createTwoFactorOk := fun _ => true
    rand := sampleRand }

/-- Like `allOkUserEnv` except that `workos.sso.getConnection` throws (the
situation the script itself logs as "No OAuth connection found"). -/
def ssoErrorEnv : UserEnv :=
  { allOkUserEnv with ssoConn := .error () }

/-! ## Helper lemmas -/

theorem jsSplit_ne_nil (sep : Char) (l : List Char) : jsSplit sep l ≠ [] := by
  induction l with
  | nil => simp [jsSplit]
  | cons c cs ih =>
    unfold jsSplit
    by_cases h : c = sep
    · simp [h]
    · simp only [if_neg h]
      cases hs : jsSplit sep cs with
      | nil => simp
      | cons r rs => simp

theorem jsSplit_headD (sep : Char) (l : List Char) :
    (jsSplit sep l).headD [] = l.takeWhile (fun c => decide (c ≠ sep)) := by
  induction l with
  | nil => rfl
  | cons c cs ih =>
    unfold jsSplit
    by_cases h : c = sep
    · simp [h, List.takeWhile_cons]
    · simp only [if_neg h]
      cases hs : jsSplit sep cs with
      | nil => exact absurd hs (jsSplit_ne_nil sep cs)
      | cons r rs =>
        rw [hs] at ih
        simp only [List.headD_cons] at ih
        rw [List.headD_cons, ih]
        simp [List.takeWhile_cons, h]

theorem mkUserReq_mem (env : UserEnv) (m : List (String × String)) (u : WUser)
    (fs : List AuthFactor) (h1 : env.authFactors = Except.ok fs)
    (h2 : env.createUserOk = true) :
    mkUserReq env u fs ∈ (processUser env m u).1 := by
  unfold processUser
  rw [h1]
  simp only [h2, if_true]
  cases hef : emailCredFactor fs with
  | some ef =>
    by_cases hcc : env.createCredAccountOk
    · simp [processUserTail, hcc]
    · simp [hcc]
  | none => simp [processUserTail]

theorem processMemberships_mem (env : UserEnv) (orgMap : List (String × String))
    (uid : String) :
    ∀ ms : List Membership,
      (∀ x ∈ ms, env.getOrgOk x.organizationId = true ∧ env.createMemberOk x = true) →
      ∀ m ∈ ms, ∀ oid, mapGet orgMap m.organizationId = some oid →
        mkMemberReq env uid oid m ∈ processMemberships env orgMap uid ms := by
  intro ms
  induction ms with
  | nil => intro _ m hm; cases hm
  | cons a rest ih =>
    intro hok m hm oid hoid
    obtain ⟨hg, hc⟩ := hok a (List.mem_cons_self a rest)
    rcases List.mem_cons.mp hm with rfl | hm2
    · unfold processMemberships
      rw [hoid]
      simp [hg, hc]
    · have hrec := ih (fun x hx => hok x (List.mem_cons_of_mem a hx)) m hm2 oid hoid
      unfold processMemberships
      cases hga : mapGet orgMap a.organizationId with
      | none => exact hrec
      | some o2 =>
        simp only [hg, hc, if_true]
        exact List.mem_cons_of_mem _ hrec

/-! ## Claim theorems (first group) -/

/-- C3: for every organization name, the derived slug equals the lowercased
name with every character outside `[a-z0-9]` replaced by a hyphen; the slug
contains only lowercase letters, digits and hyphens, and has the same
length as the lowercased input name. -/
theorem slug_derivation (name : String) :
    slugOf name = jsReplaceNonAlnum (jsToLower name) ∧
    (∀ c ∈ (slugOf name).data,
      ('a' ≤ c ∧ c ≤ 'z') ∨ ('0' ≤ c ∧ c ≤ '9') ∨ c = '-') ∧
    (slugOf name).data.length = (jsToLower name).data.length := by
  refine ⟨rfl, ?_, ?_⟩
  · intro c hc
    rw [show (slugOf name).data = (jsToLower name).data.map slugChar from rfl] at hc
    obtain ⟨d, _, rfl⟩ := List.mem_map.mp hc
    unfold slugChar
    by_cases h1 : ((decide ('a' ≤ d) && decide (d ≤ 'z')) ||
        (decide ('0' ≤ d) && decide (d ≤ '9'))) = true
    · rw [if_pos h1]
      simp only [Bool.or_eq_true, Bool.and_eq_true, decide_eq_true_eq] at h1
      rcases h1 with ⟨ha, hb⟩ | ⟨ha, hb⟩
      · exact Or.inl ⟨ha, hb⟩
      · exact Or.inr (Or.inl ⟨ha, hb⟩)
    · rw [if_neg h1]
      exact Or.inr (Or.inr rfl)
  · show ((jsToLower name).data.map slugChar).length = (jsToLower name).data.length
    exact List.length_map _ _

theorem slug_derivation_witness :
    ('-' ∈ (slugOf "Acme Inc").data) ∧
    (('a' ≤ '-' ∧ '-' ≤ 'z') ∨ ('0' ≤ '-' ∧ '-' ≤ '9') ∨ '-' = '-') :=
  ⟨by decide, (slug_derivation "Acme Inc").2.1 '-' (by decide)⟩

/-- C8: the destination user's `username` field equals the substring of the
user's email before the first `@` (the script computes it as
`email.split("@")[0]`). -/
theorem username_before_at (env : UserEnv) (m : List (String × String)) (u : WUser)
    (fs : List AuthFactor) :
    usernameOf u.email = String.mk (u.email.data.takeWhile (fun c => decide (c ≠ '@'))) ∧
    Req.usernameField (mkUserReq env u fs) = some (usernameOf u.email) ∧
    (env.authFactors = Except.ok fs → env.createUserOk = true →
      mkUserReq env u fs ∈ (processUser env m u).1) := by
  refine ⟨?_, rfl, mkUserReq_mem env m u fs⟩
  unfold usernameOf
  rw [jsSplit_headD]

theorem username_before_at_witness :
    mkUserReq allOkUserEnv sampleUser [sampleFactorTotp] ∈
      (processUser allOkUserEnv sampleOrgMap sampleUser).1 :=
  (username_before_at allOkUserEnv sampleOrgMap sampleUser [sampleFactorTotp]).2.2 rfl rfl

/-- C10: `safeDateConversion` treats every falsy input as absent: both the
numeric timestamp 0 and the empty string yield the current time `now`
rather than a parsed timestamp, while non-falsy inputs are parsed. -/
theorem safeDateConversion_falsy (now : Int) (p : String → Int) :
    safeDateConversion now p (.num 0) = now ∧
    safeDateConversion now p (.str "") = now ∧
    (∀ n : Int, n ≠ 0 → safeDateConversion now p (.num n) = n) ∧
    (∀ s : String, s ≠ "" → safeDateConversion now p (.str s) = p s) := by
  refine ⟨rfl, rfl, ?_, ?_⟩
  · intro n h
    simp [safeDateConversion, isFalsyDate, h]
  · intro s h
    simp [safeDateConversion, isFalsyDate, h]

theorem safeDateConversion_falsy_witness :
    safeDateConversion 99 (fun _ => 7) (.num 0) = 99 ∧
    safeDateConversion 99 (fun _ => 7) (.str "") = 99 ∧
    safeDateConversion 99 (fun _ => 7) (.num 3) = 3 :=
  ⟨(safeDateConversion_falsy 99 (fun _ => 7)).1,
   (safeDateConversion_falsy 99 (fun _ => 7)).2.1,
   (safeDateConversion_falsy 99 (fun _ => 7)).2.2.1 3 (by decide)⟩

/-- C4: the destination user's `twoFactorEnabled` field is true iff the
fetched auth-factor list contains at least one factor of type `"totp"`. -/
theorem twoFactorEnabled_iff (env : UserEnv) (m : List (String × String)) (u : WUser)
    (fs : List AuthFactor) :
    (twoFactorEnabledOf fs = true ↔ ∃ f ∈ fs, f.type = FType.totp) ∧
    Req.twoFactorEnabledField (mkUserReq env u fs) = some (twoFactorEnabledOf fs) ∧
    (env.authFactors = Except.ok fs → env.createUserOk = true →
      mkUserReq env u fs ∈ (processUser env m u).1) := by
  refine ⟨?_, rfl, mkUserReq_mem env m u fs⟩
  simp [twoFactorEnabledOf, List.any_eq_true]

theorem twoFactorEnabled_iff_witness :
    (twoFactorEnabledOf [sampleFactorTotp] = true ↔
      ∃ f ∈ [sampleFactorTotp], f.type = FType.totp) ∧
    twoFactorEnabledOf [sampleFactorTotp] = true :=
  ⟨(twoFactorEnabled_iff allOkUserEnv sampleOrgMap sampleUser [sampleFactorTotp]).1,
   by decide⟩

/-- C5: each invocation of the backup-code generator produces exactly 10
codes, each matching `[A-Za-z0-9]{5}-[A-Za-z0-9]{5}` (given that the random
string primitive honors its contract of returning 10 characters from the
requested alphabet), and the serialized list is encrypted with the TOTP
secret as the key. -/
theorem backupCodes_spec (rand : Nat → List Char) (secret : String)
    (h : ∀ i < 10, (rand i).length = 10 ∧ (rand i).all isAlnumB = true) :
    (rawBackupCodes rand).length = 10 ∧
    (∀ code ∈ rawBackupCodes rand, matchesBackupPattern code = true) ∧
    (generateBackupCodes rand secret).key = secret ∧
    (generateBackupCodes rand secret).data = rawBackupCodes rand := by
  refine ⟨by simp [rawBackupCodes], ?_, rfl, rfl⟩
  intro code hc
  simp only [rawBackupCodes, List.mem_map, List.mem_range] at hc
  obtain ⟨r, ⟨i, hi, rfl⟩, rfl⟩ := hc
  obtain ⟨hlen, hall⟩ := h i hi
  have htk : (rand i).take 5 ++ (rand i).drop 5 = rand i := List.take_append_drop 5 (rand i)
  have hA : ((rand i).take 5).length = 5 := by
    rw [List.length_take]; omega
  have hAall : ((rand i).take 5).all isAlnumB = true ∧
      ((rand i).drop 5).all isAlnumB = true := by
    rw [← htk, List.all_append, Bool.and_eq_true] at hall
    exact hall
  have h1 : ((rand i).take 5 ++ '-' :: (rand i).drop 5).length = 11 := by
    simp [List.length_append, hA, List.length_drop, hlen]
  have h2 : ((rand i).take 5 ++ '-' :: (rand i).drop 5).take 5 = (rand i).take 5 := by
    have hx := List.take_left ((rand i).take 5) ('-' :: (rand i).drop 5)
    rw [hA] at hx
    exact hx
  have h3 : ((rand i).take 5 ++ '-' :: (rand i).drop 5).drop 5 = '-' :: (rand i).drop 5 := by
    have hx := List.drop_left ((rand i).take 5) ('-' :: (rand i).drop 5)
    rw [hA] at hx
    exact hx
  have h4 : ((rand i).take 5 ++ '-' :: (rand i).drop 5).drop 6 = (rand i).drop 5 := by
    rw [show (6 : Nat) = 5 + 1 from rfl, ← List.drop_drop, h3]
    rfl
  unfold formatBackupCode matchesBackupPattern
  simp [h1, h2, h3, h4, hAall.1, hAall.2]

theorem backupCodes_spec_witness :
    (∀ i < 10, (sampleRand i).length = 10 ∧ (sampleRand i).all isAlnumB = true) ∧
    matchesBackupPattern (formatBackupCode (sampleRand 0)) = true :=
  ⟨by decide,
   (backupCodes_spec sampleRand "sec" (by decide)).2.1
     (formatBackupCode (sampleRand 0)) (by decide)⟩

/-- C1: during the user phase, every organization membership whose
organization id is present in the phase-1 mapping yields a destination
member create whose `role` field is the membership's role slug, with
`"member"` substituted when the slug is unset (absent or empty, the
JavaScript-falsy cases of `membership.role.slug || "member"`) — provided no
call inside the membership sub-step throws. -/
theorem member_role_default (env : UserEnv) (orgMap : List (String × String))
    (uid : String) (ms : List Membership)
    (hok : ∀ x ∈ ms, env.getOrgOk x.organizationId = true ∧ env.createMemberOk x = true) :
    (env.memberships = Except.ok ms →
      membershipReqs env orgMap uid = processMemberships env orgMap uid ms) ∧
    ∀ m ∈ ms, ∀ oid, mapGet orgMap m.organizationId = some oid →
      mkMemberReq env uid oid m ∈ processMemberships env orgMap uid ms ∧
      Req.roleField (mkMemberReq env uid oid m) = some (jsOrString m.roleSlug "member") ∧
      (m.roleSlug = none → jsOrString m.roleSlug "member" = "member") ∧
      (∀ s, m.roleSlug = some s → s ≠ "" → jsOrString m.roleSlug "member" = s) := by
  constructor
  · intro hm
    unfold membershipReqs
    rw [hm]
  · intro m hm oid hoid
    refine ⟨processMemberships_mem env orgMap uid ms hok m hm oid hoid, rfl, ?_, ?_⟩
    · intro h
      rw [h]
      rfl
    · intro s h hne
      rw [h]
      simp [jsOrString, hne]

theorem member_role_default_witness :
    (∀ x ∈ [sampleMembership], allOkUserEnv.getOrgOk x.organizationId = true ∧
      allOkUserEnv.createMemberOk x = true) ∧
    mkMemberReq allOkUserEnv "user1" "org1" sampleMembership ∈
      processMemberships allOkUserEnv sampleOrgMap "user1" [sampleMembership] ∧
    Req.roleField (mkMemberReq allOkUserEnv "user1" "org1" sampleMembership) = some "admin" := by
  have h := (member_role_default allOkUserEnv sampleOrgMap "user1" [sampleMembership]
    (by decide)).2 sampleMembership (by decide) "org1" (by decide)
  refine ⟨by decide, h.1, ?_⟩
  rw [h.2.1, h.2.2.2 "admin" rfl (by decide)]

/-! ## Pagination lemmas -/

theorem paginationLoop_decomp {σ α : Type} (step : σ → List α → σ)
    (full : List (List α)) (tail : List (Except Unit (List α))) (st : σ)
    (hfull : ∀ p ∈ full, p.length = 100) :
    paginationLoop step (full.map Except.ok ++ tail) st =
      paginationLoop step tail (full.foldl step st) := by
  induction full generalizing st with
  | nil => rfl
  | cons p ps ih =>
    have hp : p.length = 100 := hfull p (List.mem_cons_self p ps)
    have hstep : paginationLoop step (Except.ok p :: (ps.map Except.ok ++ tail)) st =
        paginationLoop step (ps.map Except.ok ++ tail) (step st p) := by
      simp [paginationLoop, hp]
    simp only [List.map_cons, List.cons_append, List.foldl_cons]
    rw [hstep, ih (step st p) (fun q hq => hfull q (List.mem_cons_of_mem p hq))]

theorem paginationLoop_err {σ α : Type} (step : σ → List α → σ)
    (rest : List (Except Unit (List α))) (st : σ) :
    paginationLoop step (Except.error () :: rest) st = st := rfl

theorem paginationLoop_stop {σ α : Type} (step : σ → List α → σ)
    (short : List α) (rest : List (Except Unit (List α))) (st : σ)
    (h : ¬ short.length = 100) :
    paginationLoop step (Except.ok short :: rest) st = step st short := by
  simp [paginationLoop, h]

theorem foldl_pages_count {σ α : Type} (step : σ → List α → σ) (t pgs : σ → Nat)
    (hstep : ∀ s p, t (step s p) = t s + p.length ∧ pgs (step s p) = pgs s + 1) :
    ∀ (full : List (List α)) (st : σ), (∀ p ∈ full, p.length = 100) →
      t (full.foldl step st) = t st + 100 * full.length ∧
      pgs (full.foldl step st) = pgs st + full.length := by
  intro full
  induction full with
  | nil =>
    intro st _
    simp
  | cons p ps ih =>
    intro st hf
    have hp : p.length = 100 := hf p (List.mem_cons_self p ps)
    obtain ⟨h1, h2⟩ := hstep st p
    obtain ⟨ih1, ih2⟩ := ih (step st p) (fun q hq => hf q (List.mem_cons_of_mem p hq))
    constructor
    · rw [List.foldl_cons, ih1, h1, hp, List.length_cons]
      ring
    · rw [List.foldl_cons, ih2, h2, List.length_cons]
      omega

/-- A full run that reaches a short page: the loop consumes exactly the
full pages and the first short page, and the counters add up. -/
theorem paginationLoop_run {σ α : Type} (step : σ → List α → σ) (t pgs : σ → Nat)
    (hstep : ∀ s p, t (step s p) = t s + p.length ∧ pgs (step s p) = pgs s + 1)
    (full : List (List α)) (short : List α) (rest : List (Except Unit (List α))) (st : σ)
    (hfull : ∀ p ∈ full, p.length = 100) (hshort : short.length < 100) :
    paginationLoop step (full.map Except.ok ++ Except.ok short :: rest) st =
      step (full.foldl step st) short ∧
    t (step (full.foldl step st) short) = t st + 100 * full.length + short.length ∧
    pgs (step (full.foldl step st) short) = pgs st + full.length + 1 := by
  have hd := paginationLoop_decomp step full (Except.ok short :: rest) st hfull
  have hs := paginationLoop_stop step short rest (full.foldl step st) (by omega)
  obtain ⟨hc1, hc2⟩ := foldl_pages_count step t pgs hstep full st hfull
  obtain ⟨hs1, hs2⟩ := hstep (full.foldl step st) short
  refine ⟨hd.trans hs, by omega, by omega⟩

theorem processOrg_count (env : OrgEnv) (st : OrgState) (o : Org) :
    (processOrg env st o).total = st.total ∧ (processOrg env st o).pages = st.pages := by
  unfold processOrg
  split
  · exact ⟨rfl, rfl⟩
  · exact ⟨rfl, rfl⟩

theorem processOrgPage_count (env : OrgEnv) :
    ∀ (page : List Org) (st : OrgState),
      (processOrgPage env st page).total = st.total ∧
      (processOrgPage env st page).pages = st.pages := by
  intro page
  induction page with
  | nil =>
    intro st
    exact ⟨rfl, rfl⟩
  | cons o os ih =>
    intro st
    have h1 := processOrg_count env st o
    have h2 := ih (processOrg env st o)
    exact ⟨h2.1.trans h1.1, h2.2.trans h1.2⟩

theorem orgStep_count (env : OrgEnv) (st : OrgState) (page : List Org) :
    (orgStep env st page).total = st.total + page.length ∧
    (orgStep env st page).pages = st.pages + 1 := by
  unfold orgStep
  have h := processOrgPage_count env page
    { st with total := st.total + page.length, pages := st.pages + 1 }
  exact ⟨h.1, h.2⟩

theorem stepUser_count (m : List (String × String)) (envf : WUser → UserEnv)
    (st : UserState) (u : WUser) :
    (stepUser m envf st u).total = st.total ∧ (stepUser m envf st u).pages = st.pages := by
  unfold stepUser
  exact ⟨rfl, rfl⟩

theorem processUsersPage_count (m : List (String × String)) (envf : WUser → UserEnv) :
    ∀ (page : List WUser) (st : UserState),
      (processUsersPage m envf st page).total = st.total ∧
      (processUsersPage m envf st page).pages = st.pages := by
  intro page
  induction page with
  | nil =>
    intro st
    exact ⟨rfl, rfl⟩
  | cons u us ih =>
    intro st
    have h1 := stepUser_count m envf st u
    have h2 := ih (stepUser m envf st u)
    exact ⟨h2.1.trans h1.1, h2.2.trans h1.2⟩

theorem userStep_count (m : List (String × String)) (envf : WUser → UserEnv)
    (st : UserState) (page : List WUser) :
    (userStep m envf st page).total = st.total + page.length ∧
    (userStep m envf st page).pages = st.pages + 1 := by
  unfold userStep
  have h := processUsersPage_count m envf page
    { st with total := st.total + page.length, pages := st.pages + 1 }
  exact ⟨h.1, h.2⟩

/-- C2: each pagination loop (organizations and users), on a source trace
whose first non-full page arrives after some number of full (length-100)
pages, terminates exactly at that short page: it consumes all the full
pages plus the short one (pages = n+1), processes 100·n + |short| records,
the totals satisfy pageCount·100 ≥ total ≥ (pageCount−1)·100, and nothing
after the short page is ever consumed. -/
theorem pagination_termination
    (oenv : OrgEnv) (ofull : List (List Org)) (oshort : List Org)
    (orest : List (Except Unit (List Org)))
    (orgMap : List (String × String)) (uenvf : WUser → UserEnv)
    (ufull : List (List WUser)) (ushort : List WUser)
    (urest : List (Except Unit (List WUser)))
    (hofull : ∀ p ∈ ofull, p.length = 100) (hoshort : oshort.length < 100)
    (hufull : ∀ p ∈ ufull, p.length = 100) (hushort : ushort.length < 100) :
    ((migrateOrganizations oenv (ofull.map Except.ok ++ Except.ok oshort :: orest) {}).pages
        = ofull.length + 1 ∧
     (migrateOrganizations oenv (ofull.map Except.ok ++ Except.ok oshort :: orest) {}).total
        = 100 * ofull.length + oshort.length ∧
     (migrateOrganizations oenv (ofull.map Except.ok ++ Except.ok oshort :: orest) {}).total ≤
        100 * (migrateOrganizations oenv (ofull.map Except.ok ++ Except.ok oshort :: orest) {}).pages ∧
     100 * ((migrateOrganizations oenv (ofull.map Except.ok ++ Except.ok oshort :: orest) {}).pages - 1) ≤
        (migrateOrganizations oenv (ofull.map Except.ok ++ Except.ok oshort :: orest) {}).total ∧
     ∀ orest2, migrateOrganizations oenv (ofull.map Except.ok ++ Except.ok oshort :: orest) {} =
        migrateOrganizations oenv (ofull.map Except.ok ++ Except.ok oshort :: orest2) {}) ∧
    ((userLoop orgMap uenvf (ufull.map Except.ok ++ Except.ok ushort :: urest) {}).pages
        = ufull.length + 1 ∧
     (userLoop orgMap uenvf (ufull.map Except.ok ++ Except.ok ushort :: urest) {}).total
        = 100 * ufull.length + ushort.length ∧
     (userLoop orgMap uenvf (ufull.map Except.ok ++ Except.ok ushort :: urest) {}).total ≤
        100 * (userLoop orgMap uenvf (ufull.map Except.ok ++ Except.ok ushort :: urest) {}).pages ∧
     100 * ((userLoop orgMap uenvf (ufull.map Except.ok ++ Except.ok ushort :: urest) {}).pages - 1) ≤
        (userLoop orgMap uenvf (ufull.map Except.ok ++ Except.ok ushort :: urest) {}).total ∧
     ∀ urest2, userLoop orgMap uenvf (ufull.map Except.ok ++ Except.ok ushort :: urest) {} =
        userLoop orgMap uenvf (ufull.map Except.ok ++ Except.ok ushort :: urest2) {}) := by
  obtain ⟨ho, hot, hop⟩ := paginationLoop_run (orgStep oenv) OrgState.total OrgState.pages
    (fun s p => orgStep_count oenv s p) ofull oshort orest {} hofull hoshort
  obtain ⟨hu, hut, hup⟩ := paginationLoop_run (userStep orgMap uenvf) UserState.total UserState.pages
    (fun s p => userStep_count orgMap uenvf s p) ufull ushort urest {} hufull hushort
  have hoz : (({} : OrgState)).total = 0 := rfl
  have hoz2 : (({} : OrgState)).pages = 0 := rfl
  have huz : (({} : UserState)).total = 0 := rfl
  have huz2 : (({} : UserState)).pages = 0 := rfl
  constructor
  · refine ⟨?_, ?_, ?_, ?_, ?_⟩
    · show (migrateOrganizations oenv _ {}).pages = _
      unfold migrateOrganizations
      rw [ho]
      omega
    · unfold migrateOrganizations
      rw [ho]
      omega
    · unfold migrateOrganizations
      rw [ho]
      omega
    · unfold migrateOrganizations
      rw [ho]
      omega
    · intro orest2
      obtain ⟨ho2, _, _⟩ := paginationLoop_run (orgStep oenv) OrgState.total OrgState.pages
        (fun s p => orgStep_count oenv s p) ofull oshort orest2 {} hofull hoshort
      unfold migrateOrganizations
      rw [ho, ho2]
  · refine ⟨?_, ?_, ?_, ?_, ?_⟩
    · unfold userLoop
      rw [hu]
      omega
    · unfold userLoop
      rw [hu]
      omega
    · unfold userLoop
      rw [hu]
      omega
    · unfold userLoop
      rw [hu]
      omega
    · intro urest2
      obtain ⟨hu2, _, _⟩ := paginationLoop_run (userStep orgMap uenvf) UserState.total UserState.pages
        (fun s p => userStep_count orgMap uenvf s p) ufull ushort urest2 {} hufull hushort
      unfold userLoop
      rw [hu, hu2]

theorem pagination_termination_witness :
    ([sampleOrg].length < 100) ∧
    (migrateOrganizations sampleOrgEnv [Except.ok [sampleOrg]] ({} : OrgState)).pages = 1 := by
  refine ⟨by decide, ?_⟩
  exact (pagination_termination sampleOrgEnv [] [sampleOrg] [] sampleOrgMap
    (fun _ => allOkUserEnv) [] [sampleUser] [] (by simp) (by decide) (by simp) (by decide)).1.1

/-- C7: a page-fetch failure (in either phase) aborts the remainder of that
phase immediately: the phase result is exactly the fold over the pages
already fetched, nothing after the failing fetch influences the run, and
the run continues into the next phase (and returns) instead of raising. -/
theorem page_fetch_failure_aborts
    (oenv : OrgEnv) (ofull : List (List Org)) (orest orest2 : List (Except Unit (List Org)))
    (orgMap : List (String × String)) (uenvf : WUser → UserEnv)
    (ufull : List (List WUser)) (urest urest2 : List (Except Unit (List WUser)))
    (userPages : List (Except Unit (List WUser)))
    (hofull : ∀ p ∈ ofull, p.length = 100) (hufull : ∀ p ∈ ufull, p.length = 100) :
    migrateOrganizations oenv (ofull.map Except.ok ++ Except.error () :: orest) {} =
      ofull.foldl (orgStep oenv) {} ∧
    migrateOrganizations oenv (ofull.map Except.ok ++ Except.error () :: orest) {} =
      migrateOrganizations oenv (ofull.map Except.ok ++ Except.error () :: orest2) {} ∧
    userLoop orgMap uenvf (ufull.map Except.ok ++ Except.error () :: urest) {} =
      ufull.foldl (userStep orgMap uenvf) {} ∧
    userLoop orgMap uenvf (ufull.map Except.ok ++ Except.error () :: urest) {} =
      userLoop orgMap uenvf (ufull.map Except.ok ++ Except.error () :: urest2) {} ∧
    migrateFromWorkOS oenv (ofull.map Except.ok ++ Except.error () :: orest) uenvf userPages =
      (ofull.foldl (orgStep oenv) {},
       userLoop (ofull.foldl (orgStep oenv) {}).map uenvf userPages {}) := by
  have ho : migrateOrganizations oenv (ofull.map Except.ok ++ Except.error () :: orest) {} =
      ofull.foldl (orgStep oenv) {} := by
    unfold migrateOrganizations
    rw [paginationLoop_decomp (orgStep oenv) ofull _ {} hofull,
      paginationLoop_err]
  have ho2 : migrateOrganizations oenv (ofull.map Except.ok ++ Except.error () :: orest2) {} =
      ofull.foldl (orgStep oenv) {} := by
    unfold migrateOrganizations
    rw [paginationLoop_decomp (orgStep oenv) ofull _ {} hofull,
      paginationLoop_err]
  have hu : userLoop orgMap uenvf (ufull.map Except.ok ++ Except.error () :: urest) {} =
      ufull.foldl (userStep orgMap uenvf) {} := by
    unfold userLoop
    rw [paginationLoop_decomp (userStep orgMap uenvf) ufull _ {} hufull,
      paginationLoop_err]
  have hu2 : userLoop orgMap uenvf (ufull.map Except.ok ++ Except.error () :: urest2) {} =
      ufull.foldl (userStep orgMap uenvf) {} := by
    unfold userLoop
    rw [paginationLoop_decomp (userStep orgMap uenvf) ufull _ {} hufull,
      paginationLoop_err]
  refine ⟨ho, ho.trans ho2.symm, hu, hu.trans hu2.symm, ?_⟩
  simp only [migrateFromWorkOS]
  rw [ho]

theorem page_fetch_failure_aborts_witness :
    migrateOrganizations sampleOrgEnv [Except.error ()] ({} : OrgState) = ({} : OrgState) :=
  (page_fetch_failure_aborts sampleOrgEnv [] [] [] sampleOrgMap (fun _ => allOkUserEnv)
    [] [] [] [] (by simp) (by simp)).1

/-! ## Per-user failure isolation -/

theorem processTwoFactors_snd_inv (e1 e2 : UserEnv)
    (h : e1.createTwoFactorOk = e2.createTwoFactorOk) (uid1 uid2 : String) :
    ∀ fs : List AuthFactor,
      (processTwoFactors e1 uid1 fs).2 = (processTwoFactors e2 uid2 fs).2 := by
  intro fs
  induction fs with
  | nil => rfl
  | cons f rest ih =>
    unfold processTwoFactors
    by_cases ht : f.type = FType.totp
    · rw [if_pos ht, if_pos ht]
      cases hcfg : f.totp_configuration with
      | some cfg =>
        rw [← h]
        by_cases hok : e1.createTwoFactorOk f = true
        · simp only [hok, if_true]
          exact ih
        · simp [hok]
      | none => exact ih
    · rw [if_neg ht, if_neg ht]
      exact ih

theorem processUser_snd_inv (e1 e2 : UserEnv) (m1 m2 : List (String × String)) (u : WUser)
    (hAF : e1.authFactors = e2.authFactors) (hCU : e1.createUserOk = e2.createUserOk)
    (hCC : e1.createCredAccountOk = e2.createCredAccountOk)
    (hTF : e1.createTwoFactorOk = e2.createTwoFactorOk) :
    (processUser e1 m1 u).2 = (processUser e2 m2 u).2 := by
  unfold processUser
  rw [← hAF, ← hCU, ← hCC]
  cases hfs : e1.authFactors with
  | error e => rfl
  | ok fs =>
    by_cases hcu : e1.createUserOk = true
    · simp only [hcu, if_true]
      cases hef : emailCredFactor fs with
      | some ef =>
        by_cases hcc : e1.createCredAccountOk = true
        · simp only [hcc, if_true]
          exact processTwoFactors_snd_inv e1 e2 hTF u.id u.id fs
        · simp [hcc]
      | none => exact processTwoFactors_snd_inv e1 e2 hTF u.id u.id fs
    · simp [hcu]

theorem processUsersPage_counters (m : List (String × String)) (envf : WUser → UserEnv) :
    ∀ (page : List WUser) (st : UserState),
      (processUsersPage m envf st page).migrated =
        st.migrated + (page.filter (fun u => (processUser (envf u) m u).2)).length ∧
      (processUsersPage m envf st page).failed =
        st.failed + (page.filter (fun u => !(processUser (envf u) m u).2)).length ∧
      (processUsersPage m envf st page).reqs =
        st.reqs ++ (page.map (fun u => (processUser (envf u) m u).1)).flatten ∧
      (processUsersPage m envf st page).migrated + (processUsersPage m envf st page).failed =
        st.migrated + st.failed + page.length := by
  intro page
  induction page with
  | nil =>
    intro st
    refine ⟨?_, ?_, ?_, ?_⟩ <;> simp [processUsersPage]
  | cons u us ih =>
    intro st
    obtain ⟨ih1, ih2, ih3, ih4⟩ := ih (stepUser m envf st u)
    have hstep : processUsersPage m envf st (u :: us) =
        processUsersPage m envf (stepUser m envf st u) us := rfl
    by_cases hu : (processUser (envf u) m u).2 = true
    · have hm : (stepUser m envf st u).migrated = st.migrated + 1 := by
        simp [stepUser, hu]
      have hf : (stepUser m envf st u).failed = st.failed := by
        simp [stepUser, hu]
      have hr : (stepUser m envf st u).reqs = st.reqs ++ (processUser (envf u) m u).1 := rfl
      refine ⟨?_, ?_, ?_, ?_⟩
      · rw [hstep, ih1, hm, List.filter_cons]
        simp only [hu, if_true, List.length_cons]
        omega
      · rw [hstep, ih2, hf, List.filter_cons]
        simp only [hu, Bool.not_true, Bool.false_eq_true, if_false]
      · rw [hstep, ih3, hr, List.map_cons, List.flatten_cons, List.append_assoc]
      · rw [hstep, ih4, hm, hf, List.length_cons]
        omega
    · have hub : (processUser (envf u) m u).2 = false := by
        revert hu
        cases (processUser (envf u) m u).2 <;> simp
      have hm : (stepUser m envf st u).migrated = st.migrated := by
        simp [stepUser, hub]
      have hf : (stepUser m envf st u).failed = st.failed + 1 := by
        simp [stepUser, hub]
      have hr : (stepUser m envf st u).reqs = st.reqs ++ (processUser (envf u) m u).1 := rfl
      refine ⟨?_, ?_, ?_, ?_⟩
      · rw [hstep, ih1, hm, List.filter_cons]
        simp only [hub, Bool.false_eq_true, if_false]
      · rw [hstep, ih2, hf, List.filter_cons]
        simp only [hub, Bool.not_false, if_true, List.length_cons]
        omega
      · rw [hstep, ih3, hr, List.map_cons, List.flatten_cons, List.append_assoc]
      · rw [hstep, ih4, hm, hf, List.length_cons]
        omega

/-- C6 (amended): within a fetched page, each user whose processing fails
at the user boundary increments the failure counter exactly once, each
completed user increments the success counter exactly once, every fetched
user increments exactly one of the two, the requests a user emits are
unaffected by the other users of the page, and a user's outcome is
independent of the OAuth-connection and organization-membership oracles —
exceptions in those two sub-steps are caught at the sub-step boundary and
counted nowhere. -/
theorem user_failure_isolation (m : List (String × String)) (envf : WUser → UserEnv) :
    (∀ (page : List WUser) (st : UserState),
      (processUsersPage m envf st page).migrated =
        st.migrated + (page.filter (fun u => (processUser (envf u) m u).2)).length ∧
      (processUsersPage m envf st page).failed =
        st.failed + (page.filter (fun u => !(processUser (envf u) m u).2)).length ∧
      (processUsersPage m envf st page).reqs =
        st.reqs ++ (page.map (fun u => (processUser (envf u) m u).1)).flatten ∧
      (processUsersPage m envf st page).migrated + (processUsersPage m envf st page).failed =
        st.migrated + st.failed + page.length) ∧
    (∀ (e1 e2 : UserEnv) (m2 : List (String × String)) (u : WUser),
      e1.authFactors = e2.authFactors → e1.createUserOk = e2.createUserOk →
      e1.createCredAccountOk = e2.createCredAccountOk →
      e1.createTwoFactorOk = e2.createTwoFactorOk →
      (processUser e1 m u).2 = (processUser e2 m2 u).2) :=
  ⟨processUsersPage_counters m envf,
   fun e1 e2 m2 u h1 h2 h3 h4 => processUser_snd_inv e1 e2 m m2 u h1 h2 h3 h4⟩

/-- C6 counterexample: a user during whose processing an exception IS
raised (`getConnection` throws, here `ssoConn = error`, the very situation
the script logs as "No OAuth connection found") is nevertheless counted as
migrated: the failure counter stays 0, contradicting the claim that any
exception raised while processing a user increments the failure counter
exactly once. -/
theorem user_exception_uncounted :
    ssoErrorEnv.ssoConn = Except.error () ∧
    (processUsersPage sampleOrgMap (fun _ => ssoErrorEnv) {} [sampleUser]).failed = 0 ∧
    (processUsersPage sampleOrgMap (fun _ => ssoErrorEnv) {} [sampleUser]).migrated = 1 := by
  refine ⟨rfl, ?_, ?_⟩ <;> rfl

theorem user_failure_isolation_witness :
    (processUser allOkUserEnv sampleOrgMap sampleUser).2 =
      (processUser ssoErrorEnv sampleOrgMap sampleUser).2 :=
  (user_failure_isolation sampleOrgMap (fun _ => allOkUserEnv)).2
    allOkUserEnv ssoErrorEnv sampleOrgMap sampleUser rfl rfl rfl rfl

/-! ## Provenance of created records -/

theorem okRecords_cons_ok {α : Type} (p : List α) (rest : List (Except Unit (List α))) :
    okRecords (Except.ok p :: rest) = p ++ okRecords rest := rfl

theorem foldl_flatten_inv {σ α β : Type} (step : σ → α → σ) (proj : σ → List β)
    (Q : α → β → Prop)
    (hstep : ∀ s a, ∀ r ∈ proj (step s a), r ∈ proj s ∨ Q a r) :
    ∀ (l : List α) (st : σ), ∀ r ∈ proj (l.foldl step st),
      r ∈ proj st ∨ ∃ a ∈ l, Q a r := by
  intro l
  induction l with
  | nil =>
    intro st r hr
    exact Or.inl hr
  | cons a as ih =>
    intro st r hr
    rcases ih (step st a) r hr with h | ⟨b, hb, hq⟩
    · rcases hstep st a r h with h2 | hq
      · exact Or.inl h2
      · exact Or.inr ⟨a, List.mem_cons_self a as, hq⟩
    · exact Or.inr ⟨b, List.mem_cons_of_mem a hb, hq⟩

theorem paginationLoop_flatten_inv {σ α β : Type} (step : σ → List α → σ)
    (proj : σ → List β) (Q : α → β → Prop)
    (hstep : ∀ s p, ∀ r ∈ proj (step s p), r ∈ proj s ∨ ∃ a ∈ p, Q a r) :
    ∀ (pages : List (Except Unit (List α))) (st : σ),
      ∀ r ∈ proj (paginationLoop step pages st),
        r ∈ proj st ∨ ∃ a ∈ okRecords pages, Q a r := by
  intro pages
  induction pages with
  | nil =>
    intro st r hr
    exact Or.inl hr
  | cons pg rest ih =>
    intro st r hr
    cases pg with
    | error e => exact Or.inl hr
    | ok page =>
      by_cases hlen : page.length = 100
      · have heq : paginationLoop step (Except.ok page :: rest) st =
            paginationLoop step rest (step st page) := by
          simp [paginationLoop, hlen]
        rw [heq] at hr
        rcases ih (step st page) r hr with h | ⟨a, ha, hq⟩
        · rcases hstep st page r h with h2 | ⟨a, ha, hq⟩
          · exact Or.inl h2
          · exact Or.inr ⟨a, by
              rw [okRecords_cons_ok]
              exact List.mem_append.mpr (Or.inl ha), hq⟩
        · exact Or.inr ⟨a, by
            rw [okRecords_cons_ok]
            exact List.mem_append.mpr (Or.inr ha), hq⟩
      · rw [paginationLoop_stop step page rest st hlen] at hr
        rcases hstep st page r hr with h2 | ⟨a, ha, hq⟩
        · exact Or.inl h2
        · exact Or.inr ⟨a, by
            rw [okRecords_cons_ok]
            exact List.mem_append.mpr (Or.inl ha), hq⟩

theorem processOrg_reqs (env : OrgEnv) (st : OrgState) (o : Org) :
    ∀ r ∈ (processOrg env st o).reqs, r ∈ st.reqs ∨ r = mkOrgReq env o := by
  unfold processOrg
  split
  · intro r hr
    rcases List.mem_append.mp hr with h | h
    · exact Or.inl h
    · exact Or.inr (List.mem_singleton.mp h)
  · intro r hr
    exact Or.inl hr

theorem processOrg_map (env : OrgEnv) (st : OrgState) (o : Org) :
    ∀ kv ∈ (processOrg env st o).map, kv ∈ st.map ∨ kv = (o.id, o.id) := by
  unfold processOrg
  split
  · intro kv hkv
    rcases List.mem_cons.mp hkv with h | h
    · exact Or.inr h
    · exact Or.inl h
  · intro kv hkv
    exact Or.inl hkv

theorem orgStep_reqs (env : OrgEnv) (st : OrgState) (page : List Org) :
    ∀ r ∈ (orgStep env st page).reqs, r ∈ st.reqs ∨ ∃ o ∈ page, r = mkOrgReq env o :=
  fun r hr => foldl_flatten_inv (processOrg env) OrgState.reqs
    (fun o r2 => r2 = mkOrgReq env o) (processOrg_reqs env) page
    { st with total := st.total + page.length, pages := st.pages + 1 } r hr

theorem orgStep_map (env : OrgEnv) (st : OrgState) (page : List Org) :
    ∀ kv ∈ (orgStep env st page).map, kv ∈ st.map ∨ ∃ o ∈ page, kv = (o.id, o.id) :=
  fun kv hkv => foldl_flatten_inv (processOrg env) OrgState.map
    (fun o kv2 => kv2 = (o.id, o.id)) (processOrg_map env) page
    { st with total := st.total + page.length, pages := st.pages + 1 } kv hkv

theorem stepUser_reqs (m : List (String × String)) (envf : WUser → UserEnv)
    (st : UserState) (u : WUser) :
    ∀ r ∈ (stepUser m envf st u).reqs, r ∈ st.reqs ∨ r ∈ (processUser (envf u) m u).1 :=
  fun _ hr => List.mem_append.mp hr

theorem userStep_reqs (m : List (String × String)) (envf : WUser → UserEnv)
    (st : UserState) (page : List WUser) :
    ∀ r ∈ (userStep m envf st page).reqs,
      r ∈ st.reqs ∨ ∃ u ∈ page, r ∈ (processUser (envf u) m u).1 :=
  fun r hr => foldl_flatten_inv (stepUser m envf) UserState.reqs
    (fun u r2 => r2 ∈ (processUser (envf u) m u).1) (stepUser_reqs m envf) page
    { st with total := st.total + page.length, pages := st.pages + 1 } r hr

theorem oauthReqs_model (env : UserEnv) (u : WUser) :
    ∀ r ∈ oauthReqs env u, Req.modelName r = "account" ∧ Req.force r = true := by
  unfold oauthReqs
  cases env.ssoConn with
  | error e =>
    intro r hr
    cases hr
  | ok oc =>
    cases oc with
    | none =>
      intro r hr
      cases hr
    | some c =>
      by_cases h : env.createOauthAccountOk = true
      · simp only [h, if_true]
        intro r hr
        rw [List.mem_singleton.mp hr]
        exact ⟨rfl, rfl⟩
      · simp only [h, if_false]
        intro r hr
        cases hr

theorem processMemberships_model (env : UserEnv) (orgMap : List (String × String))
    (uid : String) :
    ∀ ms, ∀ r ∈ processMemberships env orgMap uid ms,
      Req.modelName r = "member" ∧ Req.force r = true := by
  intro ms
  induction ms with
  | nil =>
    intro r hr
    cases hr
  | cons a rest ih =>
    intro r hr
    unfold processMemberships at hr
    cases hg : mapGet orgMap a.organizationId with
    | none =>
      rw [hg] at hr
      exact ih r hr
    | some oid =>
      rw [hg] at hr
      by_cases h1 : env.getOrgOk a.organizationId = true
      · simp only [h1, if_true] at hr
        by_cases h2 : env.createMemberOk a = true
        · simp only [h2, if_true] at hr
          rcases List.mem_cons.mp hr with h | h
          · rw [h]
            exact ⟨rfl, rfl⟩
          · exact ih r h
        · simp only [h2, if_false] at hr
          cases hr
      · simp only [h1, if_false] at hr
        cases hr

theorem membershipReqs_model (env : UserEnv) (orgMap : List (String × String))
    (uid : String) :
    ∀ r ∈ membershipReqs env orgMap uid,
      Req.modelName r = "member" ∧ Req.force r = true := by
  unfold membershipReqs
  cases env.memberships with
  | error e =>
    intro r hr
    cases hr
  | ok ms => exact processMemberships_model env orgMap uid ms

theorem processTwoFactors_model (env : UserEnv) (uid : String) :
    ∀ fs, ∀ r ∈ (processTwoFactors env uid fs).1,
      Req.modelName r = "twoFactor" ∧ Req.force r = true := by
  intro fs
  induction fs with
  | nil =>
    intro r hr
    cases hr
  | cons f rest ih =>
    intro r hr
    unfold processTwoFactors at hr
    by_cases ht : f.type = FType.totp
    · rw [if_pos ht] at hr
      cases hcfg : f.totp_configuration with
      | some cfg =>
        rw [hcfg] at hr
        by_cases hok : env.createTwoFactorOk f = true
        · simp only [hok, if_true] at hr
          rcases List.mem_cons.mp hr with h | h
          · rw [h]
            exact ⟨rfl, rfl⟩
          · exact ih r h
        · simp only [hok, if_false] at hr
          cases hr
      | none =>
        rw [hcfg] at hr
        exact ih r hr
    · rw [if_neg ht] at hr
      exact ih r hr

theorem processUserTail_reqs_user (env : UserEnv) (m : List (String × String))
    (u : WUser) (fs : List AuthFactor) (base : List Req)
    (hbase : ∀ r ∈ base, Req.force r = true ∧
      (Req.modelName r = "user" → Req.reqId r = some u.id)) :
    ∀ r ∈ (processUserTail env m u fs base).1,
      Req.force r = true ∧ (Req.modelName r = "user" → Req.reqId r = some u.id) := by
  intro r hr
  rcases List.mem_append.mp hr with h1 | h1
  · rcases List.mem_append.mp h1 with h2 | h2
    · rcases List.mem_append.mp h2 with h3 | h3
      · exact hbase r h3
      · obtain ⟨hm, hf⟩ := oauthReqs_model env u r h3
        exact ⟨hf, fun hx => absurd (hm.symm.trans hx) (by decide)⟩
    · obtain ⟨hm, hf⟩ := membershipReqs_model env m u.id r h2
      exact ⟨hf, fun hx => absurd (hm.symm.trans hx) (by decide)⟩
  · obtain ⟨hm, hf⟩ := processTwoFactors_model env u.id fs r h1
    exact ⟨hf, fun hx => absurd (hm.symm.trans hx) (by decide)⟩

theorem processUser_reqs_user (env : UserEnv) (m : List (String × String)) (u : WUser) :
    ∀ r ∈ (processUser env m u).1,
      Req.force r = true ∧ (Req.modelName r = "user" → Req.reqId r = some u.id) := by
  unfold processUser
  cases hfs : env.authFactors with
  | error e =>
    intro r hr
    cases hr
  | ok fs =>
    by_cases hcu : env.createUserOk = true
    · simp only [hcu, if_true]
      cases hef : emailCredFactor fs with
      | some ef =>
        by_cases hcc : env.createCredAccountOk = true
        · simp only [hcc, if_true]
          refine processUserTail_reqs_user env m u fs _ ?_
          intro r hr
          rcases List.mem_cons.mp hr with h | h
          · rw [h]
            exact ⟨rfl, fun _ => rfl⟩
          · rw [List.mem_singleton.mp h]
            exact ⟨rfl, fun hx => absurd hx (by simp [mkCredAccountReq, Req.modelName])⟩
        · simp only [hcc, if_false]
          intro r hr
          rw [List.mem_singleton.mp hr]
          exact ⟨rfl, fun _ => rfl⟩
      | none =>
        refine processUserTail_reqs_user env m u fs _ ?_
        intro r hr
        rw [List.mem_singleton.mp hr]
        exact ⟨rfl, fun _ => rfl⟩
    · simp only [hcu, if_false]
      intro r hr
      cases hr

/-- C9: every destination organization and user record is created with
`forceAllowId` set and with the source record's own id passed as the
destination id; the organization map only ever holds
source-id ↦ same-id bindings coming from the organization phase; and the
run is exactly the composition "organization phase, then user phase reading
the map the organization phase returned". -/
theorem forced_ids_and_org_map (oenv : OrgEnv) (orgPages : List (Except Unit (List Org)))
    (uenvf : WUser → UserEnv) (userPages : List (Except Unit (List WUser))) :
    (∀ r ∈ (migrateFromWorkOS oenv orgPages uenvf userPages).1.reqs,
       Req.modelName r = "organization" ∧ Req.force r = true ∧
       ∃ o ∈ okRecords orgPages, Req.reqId r = some o.id) ∧
    (∀ kv ∈ (migrateFromWorkOS oenv orgPages uenvf userPages).1.map,
       kv.1 = kv.2 ∧ ∃ o ∈ okRecords orgPages, kv.1 = o.id) ∧
    (∀ r ∈ (migrateFromWorkOS oenv orgPages uenvf userPages).2.reqs,
       Req.force r = true ∧
       (Req.modelName r = "user" → ∃ u ∈ okRecords userPages, Req.reqId r = some u.id)) ∧
    migrateFromWorkOS oenv orgPages uenvf userPages =
      (migrateOrganizations oenv orgPages {},
       userLoop (migrateOrganizations oenv orgPages {}).map uenvf userPages {}) := by
  refine ⟨?_, ?_, ?_, rfl⟩
  · intro r hr
    rcases paginationLoop_flatten_inv (orgStep oenv) OrgState.reqs
        (fun o r2 => r2 = mkOrgReq oenv o) (orgStep_reqs oenv) orgPages {} r hr with
      h | ⟨o, ho, rfl⟩
    · cases h
    · exact ⟨rfl, rfl, o, ho, rfl⟩
  · intro kv hkv
    rcases paginationLoop_flatten_inv (orgStep oenv) OrgState.map
        (fun o kv2 => kv2 = (o.id, o.id)) (orgStep_map oenv) orgPages {} kv hkv with
      h | ⟨o, ho, rfl⟩
    · cases h
    · exact ⟨rfl, o, ho, rfl⟩
  · intro r hr
    rcases paginationLoop_flatten_inv
        (userStep (migrateOrganizations oenv orgPages {}).map uenvf) UserState.reqs
        (fun u r2 => r2 ∈ (processUser (uenvf u) (migrateOrganizations oenv orgPages {}).map u).1)
        (userStep_reqs (migrateOrganizations oenv orgPages {}).map uenvf)
        userPages {} r hr with
      h | ⟨u, hu, hq⟩
    · cases h
    · obtain ⟨hf, hid⟩ := processUser_reqs_user (uenvf u)
        (migrateOrganizations oenv orgPages {}).map u r hq
      exact ⟨hf, fun hx => ⟨u, hu, hid hx⟩⟩

theorem forced_ids_and_org_map_witness :
    Req.modelName (mkOrgReq sampleOrgEnv sampleOrg) = "organization" ∧
    Req.force (mkOrgReq sampleOrgEnv sampleOrg) = true ∧
    ∃ o ∈ okRecords [Except.ok [sampleOrg]],
      Req.reqId (mkOrgReq sampleOrgEnv sampleOrg) = some o.id :=
  (forced_ids_and_org_map sampleOrgEnv [Except.ok [sampleOrg]] (fun _ => allOkUserEnv)
    [Except.ok [sampleUser]]).1 (mkOrgReq sampleOrgEnv sampleOrg) (by decide)

end MigrateWorkOS
